import Mathlib

/-!
# Verification of `finna_crawler.py`

A shallow embedding of the resumable OAI-PMH harvester in
`src/finna_crawler.py`, together with proofs and refutations of the
specification's claims about it.

Conventions of the embedding:
* Python strings are Lean `String`s; the handful of Python string
  operations the crawler uses (`readline`, `rstrip`, `split('/')`,
  `split('}', 1)`, `startswith`) are re-implemented below over `List Char`
  so that they can be reasoned about by list induction.
* `None`-able Python values are `Option`s; Python code paths that raise an
  uncaught exception are modelled with explicit crash results.
* The remote OAI-PMH server is modelled as a list of pages, where the
  resumption token attached to page `i` carries the decimal string of the
  index of the next page; an HTTP failure is injected via a `failAt` page
  index (the retry policy inside `sickle` is opaque to the driver, which
  only sees "got a page" or `HTTPError`).
-/

namespace FinnaCrawler

/-! ## Python string primitives, over `List Char` -/

/-- Characters stripped by Python's `str.rstrip()` (whitespace). -/
def pyIsSpace (c : Char) : Bool :=
  c = ' ' || c = '\t' || c = '\n' || c = '\r' || c = '\x0b' || c = '\x0c'

/-- Python `str.rstrip()`: drop trailing whitespace. -/
def rstrip (s : String) : String :=
  ⟨(s.toList.reverse.dropWhile pyIsSpace).reverse⟩

/-- Universal-newline translation performed by Python text-mode reads:
`"\r\n"` and a lone `"\r"` both become `"\n"`. -/
def unlChars : List Char → List Char
  | [] => []
  | '\r' :: '\n' :: rest => '\n' :: unlChars rest
  | '\r' :: rest => '\n' :: unlChars rest
  | c :: rest => c :: unlChars rest

/-- `file.readline()` on a text-mode file positioned at the start: the first
line of the content, without its terminating newline (the trailing `'\n'`
itself is immaterial because the crawler always `rstrip`s the result). -/
def firstLine (s : String) : String :=
  ⟨(unlChars s.toList).takeWhile (fun c => c ≠ '\n')⟩

/-- Python `str.split(sep)` for a one-character separator, over `List Char`. -/
def splitOnChar (sep : Char) : List Char → List (List Char)
  | [] => [[]]
  | c :: cs =>
    match splitOnChar sep cs with
    | [] => [[c]]
    | g :: gs => if c = sep then [] :: g :: gs else (c :: g) :: gs

/-- Python `str.split(sep)` for a one-character separator. -/
def pySplit (sep : Char) (s : String) : List String :=
  (splitOnChar sep s.toList).map fun l => ⟨l⟩

/-- Python `str.split(sep, 1)` restricted to taking the `[1]` element:
the part after the first occurrence of `sep`, or `none` when `sep` does not
occur (in which case the Python subscript raises `IndexError`). -/
def splitOnceAfter (sep : Char) : List Char → Option (List Char)
  | [] => none
  | c :: cs => if c = sep then some cs else splitOnceAfter sep cs

/-- Python `int(s)` for an optional string of plain decimal digits, the only
shape the crawler ever feeds it: `none` models the raised `TypeError` (when
the argument is `None`) or `ValueError` (when it is not a number). -/
def pyInt? (s : String) : Option Nat :=
  match s.toList with
  | [] => none
  | ds =>
    ds.foldl
      (fun acc c =>
        match acc with
        | none => none
        | some n =>
          if 48 ≤ c.toNat ∧ c.toNat ≤ 57 then some (n * 10 + (c.toNat - 48))
          else none)
      (some 0)

/-! ## ContinuationState (`sickle.models.ResumptionToken`)

The fields mirror the `ResumptionToken` constructor used at lines 82–86 of
the source: `token`, `cursor`, `complete_list_size`, `expiration_date`.
All are Python strings or `None`; the crawler never parses them beyond what
is modelled here. -/

structure Token where
  token : String
  cursor : Option String
  complete_list_size : Option String
  expiration_date : Option String
  deriving DecidableEq, Repr

/-! ## Checkpoint Store -/

/-- Result of the status-file load at lines 78–91. -/
inductive LoadResult where
  /-- No prior state: harvest starts from position zero. -/
  | noPrior
  /-- `logging.error("Unknown number of parts ...")` followed by `return`. -/
  | corrupt
  /-- A parsed resumption token: harvest resumes. -/
  | resume (t : Token)
  deriving DecidableEq, Repr

/-- Lines 79–91 of the source: read the first line of the status file,
`rstrip` it, split on `'/'`; exactly 4 parts build a `ResumptionToken`
(each field the corresponding part, hence a plain string, never `None`);
a single empty part means no prior state; anything else is logged as an
unknown number of parts and the function returns. -/
def loadLine (content : String) : LoadResult :=
  match pySplit '/' (rstrip (firstLine content)) with
  | [t, c, s, e] => .resume ⟨t, some c, some s, some e⟩
  | [x] => if x = "" then .noPrior else .corrupt
  | _ => .corrupt

/-- Lines 78–94: the file is only read when it exists; a missing file is
the same "no prior state" as an empty one. -/
def loadStatusFile (statusExists : Bool) (content : String) : LoadResult :=
  if statusExists then loadLine content else .noPrior

/-- Lines 147–157 of the source: the status-file content written after an
item when a resumption token is present — token, `'/'`, then each optional
field (written only when not `None`) separated by `'/'`. -/
def saveToken (t : Token) : String :=
  t.token ++ "/" ++ t.cursor.getD "" ++ "/" ++ t.complete_list_size.getD ""
    ++ "/" ++ t.expiration_date.getD ""

/-! ## The remote server and the paginated fetch loop

`sickle.ListRecords` yields records page by page; each page response
carries the resumption token used to fetch the next page (or none on the
final page).  The server is modelled as a list of pages whose tokens carry
the decimal index of the page they fetch; a non-retryable HTTP failure is
injected as the index of the page whose fetch raises `HTTPError` (after
`sickle`'s internal retries are exhausted). -/

/-- One page of an OAI-PMH listing: the record identifiers it yields (the
records themselves are consumed immediately and never retained) and the
resumption token returned with the page. -/
structure Page where
  items : List Nat
  tok : Option Token
  deriving DecidableEq, Repr

/-- Resolve a list request: `none` is the initial request (page 0), a token
string is interpreted by the server as a decimal page index.  A token the
server cannot resolve, an out-of-range page, or the injected `failAt` page
all surface to the driver as `HTTPError`. -/
def fetchPage (pages : List Page) (failAt : Option Nat) (t : Option String) :
    Except Unit Page :=
  match (match t with | none => some 0 | some s => pyInt? s) with
  | none => .error ()
  | some i => if failAt = some i then .error () else
      match pages[i]? with
      | some p => .ok p
      | none => .error ()

/-- The content the status file holds after an item of a page is committed:
lines 145–158 truncate the file and, when a resumption token is present,
write its serialization (the final page carries no token, so the file is
left truncated to empty). -/
def statusOfTok : Option Token → String
  | some t => saveToken t
  | none => ""

/-- The per-item commits produced while iterating one page, in order: each
item is emitted to the sinks and then the status file is rewritten with the
serialization of the page's resumption token (the same token for every item
of the page, since `records.resumption_token` only changes when the next
page is fetched). -/
def pageCommits (p : Page) : List (Nat × String) :=
  p.items.map fun it => (it, statusOfTok p.tok)

/-- The streaming loop of lines 114–159, starting from an already fetched
page: emit and commit every item of the page; then, if the page carries a
resumption token with a non-empty token string, fetch the next page and
continue, else stop.  A fetch failure is the `HTTPError` caught at line
160: the loop ends with the commits made so far and the aborted flag set.
`fuel` bounds the recursion; any `fuel ≥ pages.length` is enough for the
well-formed servers used below, whose tokens strictly increase. -/
def streamLoop (pages : List Page) (failAt : Option Nat) :
    Nat → Page → List (Nat × String) × Bool
  | 0, p => (pageCommits p, false)
  | fuel + 1, p =>
    match p.tok with
    | none => (pageCommits p, false)
    | some t =>
      if t.token = "" then (pageCommits p, false)
      else
        match fetchPage pages failAt (some t.token) with
        | .error _ => (pageCommits p, true)
        | .ok p' =>
          let r := streamLoop pages failAt fuel p'
          (pageCommits p ++ r.1, r.2)

/-! ## The driver (`crawl_finna`) -/

/-- The command-line options of `crawl_finna` together with the relevant
pre-existing filesystem state (whether the status file and the metadata
output file exist, and the status file's content). -/
structure Config where
  metadata_format : Option String
  set : Option String
  status_file_exists : Bool
  status_content : String
  metadata_output : Option String
  metadata_output_exists : Bool
  record_output : Option String
  strip_xml : Bool
  full_record : Bool
  deriving DecidableEq, Repr

/-- Outcome of one invocation of `crawl_finna`. -/
inductive RunResult where
  /-- No metadata prefix: print available prefixes and sets, return. -/
  | helpExit
  /-- Neither output file defined: print a message, return. -/
  | noSinkExit
  /-- Status file did not parse: `logging.error`, return. -/
  | corruptExit
  /-- Uncaught `TypeError` from `exists(None)` at line 95 (and `xopen(None)`
  at line 96 would raise likewise): the process crashes. -/
  | typeErrorCrash
  /-- Uncaught `AttributeError`/`TypeError` from dereferencing a missing
  resumption token or converting a missing cursor at lines 105 or 114. -/
  | attrErrorCrash
  /-- The streaming phase ran: the record identifiers emitted to the sinks
  in order, whether the harvest was aborted by a logged `HTTPError`,
  the final content of the status file, whether a header row was written
  to the metadata table, and whether a size-drift warning was logged. -/
  | ran (outputs : List Nat) (aborted : Bool) (finalStatus : String)
      (headerWritten : Bool) (sizeWarned : Bool)
  deriving DecidableEq, Repr

/-- Lines 114–159 from the page at which iteration starts:
`tqdm(records, initial=int(records.resumption_token.cursor),
total=int(records.resumption_token.complete_list_size))` dereferences the
current resumption token and converts its cursor and size with `int`, so a
missing token (final or only page) raises `AttributeError` and a missing or
non-numeric field raises `TypeError`/`ValueError`; otherwise the streaming
loop runs and — on normal completion and on a logged abort alike — line 162
truncates the status file to empty before the handles close. -/
def runStream (pages : List Page) (failAt : Option Nat) (p : Page)
    (headerWritten sizeWarned : Bool) : RunResult :=
  match p.tok with
  | none => .attrErrorCrash
  | some t =>
    match t.cursor.bind pyInt?, t.complete_list_size.bind pyInt? with
    | some _, some _ =>
      let r := streamLoop pages failAt (pages.length + 1) p
      .ran (r.1.map Prod.fst) r.2 "" headerWritten sizeWarned
    | _, _ => .attrErrorCrash

/-- Lines 95–159, after the status file has been loaded (`rt` is the parsed
resumption token, or `none` for a fresh start): line 95 evaluates
`exists(metadata_output)` — a `TypeError` when no metadata output is
configured — and writes the header when the file does not exist; line 99
opens the status file in `'wt'` mode, truncating it; line 103 issues the
initial list request; lines 104–109 compare the stored and fresh list sizes
and reposition the stream at the stored token; then the streaming loop
runs. -/
def afterLoad (c : Config) (rt : Option Token) (pages : List Page)
    (failAt : Option Nat) : RunResult :=
  match c.metadata_output with
  | none => .typeErrorCrash
  | some _ =>
    let headerWritten := !c.metadata_output_exists
    match fetchPage pages failAt none with
    | .error _ => .ran [] true "" headerWritten false
    | .ok page0 =>
      match rt with
      | none => runStream pages failAt page0 headerWritten false
      | some stored =>
        match page0.tok with
        | none => .attrErrorCrash
        | some fresh =>
          let warn := decide (fresh.complete_list_size ≠ stored.complete_list_size)
          match fetchPage pages failAt (some stored.token) with
          | .error _ => .ran [] true "" headerWritten warn
          | .ok pj => runStream pages failAt pj headerWritten warn

/-- The whole of `crawl_finna` (lines 64–162): the help exit when no
metadata prefix is given, the no-sink exit, the status-file load with its
corrupt-checkpoint exit, and the harvest itself. -/
def crawl (c : Config) (pages : List Page) (failAt : Option Nat) : RunResult :=
  if c.metadata_format.isNone then .helpExit
  else if c.metadata_output.isNone && c.record_output.isNone then .noSinkExit
  else
    match loadStatusFile c.status_file_exists c.status_content with
    | .corrupt => .corruptExit
    | .noPrior => afterLoad c none pages failAt
    | .resume t => afterLoad c (some t) pages failAt

/-! ## Kill and restart

Killing the process "after item k's commit point" leaves on disk the
outputs of the first `k` commits and the status-file content written by the
`k`-th commit; a restart is a fresh invocation of `crawl_finna` against the
resulting status file (both sinks are opened in append mode, so the two
runs' outputs concatenate). -/

/-- The commit sequence of a fresh-start run: each element is one item's
commit — the identifier appended to the sinks and the status-file content
written right after it. -/
def runCommits (pages : List Page) (failAt : Option Nat) : List (Nat × String) :=
  match fetchPage pages failAt none with
  | .error _ => []
  | .ok p0 => (streamLoop pages failAt (pages.length + 1) p0).1

/-- The commit sequence of an uninterrupted fresh run. -/
def freshCommits (pages : List Page) : List (Nat × String) :=
  runCommits pages none

/-- Status-file content on disk after the `k`-th commit of a fresh run
(empty before the first commit, since the `'wt'` open truncated it). -/
def statusAfterKill (pages : List Page) (k : Nat) : String :=
  (((freshCommits pages).take k).map Prod.snd).getLastD ""

/-- Record identifiers already appended to the sinks when the process is
killed after the `k`-th commit of a fresh run. -/
def outputsBeforeKill (pages : List Page) (k : Nat) : List Nat :=
  ((freshCommits pages).take k).map Prod.fst

/-- The identifiers a run emitted (none for the exit and crash outcomes). -/
def runOutputs : RunResult → List Nat
  | .ran o _ _ _ _ => o
  | _ => []

/-- Final contents of the record stream after harvesting fresh, being
killed after the `k`-th commit, and restarting once against the status file
the killed run left behind. -/
def killRestartOutputs (c : Config) (pages : List Page) (k : Nat) : List Nat :=
  outputsBeforeKill pages k ++
    runOutputs (crawl { c with status_file_exists := true,
                               status_content := statusAfterKill pages k } pages none)

/-! ## Concrete example inputs

A six-record corpus served in three pages of two records each, a
well-behaved configuration with both sinks given, and a variant server
whose fresh listing reports a different total size. -/

/-- Token returned with page 0: fetches page 1, cursor 2 of 6. -/
def tok1 : Token := ⟨"1", some "2", some "6", none⟩

/-- Token returned with page 1: fetches page 2, cursor 4 of 6. -/
def tok2 : Token := ⟨"2", some "4", some "6", none⟩

/-- A six-item corpus in three pages; the final page carries no token. -/
def pagesEx : List Page := [⟨[1, 2], some tok1⟩, ⟨[3, 4], some tok2⟩, ⟨[5, 6], none⟩]

/-- A fresh-start configuration with both sinks configured and the metadata
table already existing. -/
def cfgFresh : Config :=
  ⟨some "oai_dc", none, false, "", some "meta.tsv", true, some "rec.xml", true, false⟩

/-- Same corpus, but the fresh listing now reports `completeListSize` 7
where a prior run recorded 6. -/
def tok1Drift : Token := ⟨"1", some "2", some "7", none⟩

/-- The drifted three-page corpus. -/
def pagesDrift : List Page :=
  [⟨[1, 2], some tok1Drift⟩, ⟨[3, 4], some tok2⟩, ⟨[5, 6], none⟩]

/-! ## Claim C1 -/

/-- C1. The claim fails on the code: an uninterrupted run of the six-item
corpus emits `[1, 2, 3, 4, 5, 6]`, but the checkpoint persisted after
item 1 is the serialization of the page-level token `tok1` (pointing at
page 1), not a position immediately after item 1 — so killing after item 1
and restarting emits `[1, 3, 4, 5, 6]`, skipping item 2, and killing after
item 5 (during the final page, whose commits truncate the checkpoint to
empty) makes the restart re-harvest from zero, emitting every record of
pages 0 and 1 twice. -/
theorem c1_kill_restart_not_equivalent :
    runOutputs (crawl cfgFresh pagesEx none) = [1, 2, 3, 4, 5, 6] ∧
    statusAfterKill pagesEx 1 = saveToken tok1 ∧
    killRestartOutputs cfgFresh pagesEx 1 = [1, 3, 4, 5, 6] ∧
    statusAfterKill pagesEx 5 = "" ∧
    killRestartOutputs cfgFresh pagesEx 5 = [1, 2, 3, 4, 5, 1, 2, 3, 4, 5, 6] := by
  decide

/-! ## Claim C2 -/

/-- C2. The claim fails on the code: when the fetch of page 2 raises a
non-retryable `HTTPError` after the four items of pages 0 and 1 were
committed, the exception is indeed caught and logged (the run ends in
`ran .. (aborted := true)` rather than a crash), but the status file does
not keep the last committed checkpoint `"2/4/6/"` — line 162
(`sf.truncate(0)`) executes after the handler and leaves it empty. -/
theorem c2_abort_truncates_checkpoint :
    crawl cfgFresh pagesEx (some 2) = .ran [1, 2, 3, 4] true "" false false ∧
    ((runCommits pagesEx (some 2)).map Prod.snd).getLastD "" = "2/4/6/" ∧
    ("" : String) ≠ "2/4/6/" := by
  decide

/-! ## Claim C7 -/

/-- C7. The claim fails on the code: with only the record sink configured
(`metadata_output = None`), line 95 evaluates `exists(None)`, which raises
an uncaught `TypeError`, so the harvest never starts. -/
theorem c7_record_sink_only_crashes :
    crawl ⟨some "oai_dc", none, false, "", none, false, some "rec.xml", true, false⟩
        pagesEx none = .typeErrorCrash := by
  decide

/-! ## Claim C4 -/

/-- C4. Counterexample to the byte-for-byte round trip: a token containing
the field delimiter `'/'` is saved as `"a/b///"`, which reloads as a
corrupt checkpoint (five parts), not as the original state; and a state
with absent optional fields reloads with those fields present-but-empty
(`some ""`), not absent. -/
theorem c4_roundtrip_counterexample :
    loadLine (saveToken ⟨"a/b", none, none, none⟩) = .corrupt ∧
    loadLine (saveToken ⟨"t", none, none, none⟩) ≠ .resume ⟨"t", none, none, none⟩ := by
  decide

/-! ## Claim C5 -/

/-- C5. Counterexample: a status file holding a single space exists, is
non-empty, and its single line splits on `'/'` into one field, not four —
yet the load does not fail as corrupt: the `rstrip` at line 80 reduces the
line to the empty no-prior-state signal and the harvest silently restarts
from position zero, emitting the whole corpus. -/
theorem c5_whitespace_counterexample :
    (" " : String) ≠ "" ∧
    (pySplit '/' (firstLine " ")).length ≠ 4 ∧
    loadLine " " ≠ .corrupt ∧
    crawl { cfgFresh with status_file_exists := true, status_content := " " }
        pagesEx none = .ran [1, 2, 3, 4, 5, 6] false "" false false := by
  decide

/-- The status-file load is corrupt whenever the stripped first line splits
into something other than four fields and is not the single empty field of
an empty line. -/
theorem loadLine_eq_corrupt (content : String)
    (hlen : (pySplit '/' (rstrip (firstLine content))).length ≠ 4)
    (hne : pySplit '/' (rstrip (firstLine content)) ≠ [""]) :
    loadLine content = .corrupt := by
  rcases hparts : pySplit '/' (rstrip (firstLine content)) with
    _ | ⟨x, _ | ⟨y, _ | ⟨z, _ | ⟨w, _ | ⟨v, rest⟩⟩⟩⟩⟩ <;>
    simp_all [loadLine]

/-- The post-load phase of the driver reads only the metadata-output
configuration from the `Config`; it never consults the status-file
fields. -/
theorem afterLoad_status_irrelevant (c c' : Config)
    (h1 : c.metadata_output = c'.metadata_output)
    (h2 : c.metadata_output_exists = c'.metadata_output_exists)
    (rt : Option Token) (pages : List Page) (failAt : Option Nat) :
    afterLoad c rt pages failAt = afterLoad c' rt pages failAt := by
  unfold afterLoad
  rw [h1, h2]

/-! ## Claim C6 -/

/-- C6. Confirmed: for every configuration, server and failure pattern, a
run started with no status file at all and a run started with an existing
but empty status file are the same run — both load the no-prior-state
continuation and everything that follows is identical. -/
theorem c6_no_file_eq_empty_file (c : Config) (content : String)
    (pages : List Page) (failAt : Option Nat) :
    crawl { c with status_file_exists := false, status_content := content }
        pages failAt
      = crawl { c with status_file_exists := true, status_content := "" }
        pages failAt := by
  obtain ⟨mp, st, sfe, sc, mo, moe, ro, sx, fr⟩ := c
  unfold crawl
  dsimp only
  rw [show loadStatusFile false content = LoadResult.noPrior from rfl,
      show loadStatusFile true "" = LoadResult.noPrior from rfl]
  dsimp only
  split
  · rfl
  · split
    · rfl
    · exact afterLoad_status_irrelevant _ _ rfl rfl _ _ _

/-! ## Claim C5, amended -/

/-- C5 as amended: if the status file exists and its first line, after
stripping trailing whitespace, is not empty and does not split into exactly
four slash-separated fields, then (in any configuration that reaches the
load, i.e. a metadata prefix and at least one sink are given) the run exits
with the logged corrupt-checkpoint error before opening any output or
issuing any request — it does not restart from zero.  The amendment: the
field count is taken after the `rstrip`, so a whitespace-only line is
treated like an empty file rather than as corrupt. -/
theorem c5_amended_corrupt_exit (c : Config) (pages : List Page)
    (failAt : Option Nat)
    (hp : c.metadata_format.isNone = false)
    (hs : (c.metadata_output.isNone && c.record_output.isNone) = false)
    (he : c.status_file_exists = true)
    (hlen : (pySplit '/' (rstrip (firstLine c.status_content))).length ≠ 4)
    (hne : pySplit '/' (rstrip (firstLine c.status_content)) ≠ [""]) :
    crawl c pages failAt = .corruptExit := by
  unfold crawl loadStatusFile
  rw [he, loadLine_eq_corrupt c.status_content hlen hne]
  simp [hp, hs]

/-- C5 amended, witnessed at a concrete two-field status file. -/
theorem c5_amended_corrupt_exit_witness :
    crawl { cfgFresh with status_file_exists := true, status_content := "x/y" }
        pagesEx none = .corruptExit :=
  c5_amended_corrupt_exit _ pagesEx none (by decide) (by decide) (by decide)
    (by decide) (by decide)

/-! ## Claim C8 -/

/-- C8. Confirmed: whenever a run resumes from a stored token and the
freshly fetched initial page carries a resumption token whose
`completeListSize` differs from the stored one, the run logs the size-drift
warning (the `true` in the conclusion) and nevertheless continues by
streaming from the page the server returns for the stored token — the
freshly negotiated initial page is discarded. -/
theorem c8_size_drift_warns_and_resumes (c : Config) (pages : List Page)
    (failAt : Option Nat) (stored fresh : Token) (page0 pj : Page)
    (hp : c.metadata_format.isNone = false)
    (hs : (c.metadata_output.isNone && c.record_output.isNone) = false)
    (hmo : c.metadata_output.isSome = true)
    (hload : loadStatusFile c.status_file_exists c.status_content
      = .resume stored)
    (h0 : fetchPage pages failAt none = .ok page0)
    (hf : page0.tok = some fresh)
    (hdrift : fresh.complete_list_size ≠ stored.complete_list_size)
    (hj : fetchPage pages failAt (some stored.token) = .ok pj) :
    crawl c pages failAt
      = runStream pages failAt pj (!c.metadata_output_exists) true := by
  obtain ⟨m, hm⟩ := Option.isSome_iff_exists.mp hmo
  have hd : decide (fresh.complete_list_size ≠ stored.complete_list_size) = true :=
    decide_eq_true hdrift
  simp only [crawl, afterLoad, hload, hp, hs, hm, h0, hf, hj, hd,
    Option.isNone_some, Bool.false_and, Bool.false_eq_true, if_false]

/-- C8, witnessed: resuming from checkpoint `"1/2/6/"` against a server
whose fresh listing reports size 7 warns and harvests pages 1 and 2. -/
theorem c8_size_drift_witness :
    crawl { cfgFresh with status_file_exists := true,
                          status_content := "1/2/6/" } pagesDrift none
      = .ran [3, 4, 5, 6] false "" false true := by
  rw [c8_size_drift_warns_and_resumes _ pagesDrift none
    ⟨"1", some "2", some "6", some ""⟩ tok1Drift ⟨[1, 2], some tok1Drift⟩
    ⟨[3, 4], some tok2⟩ (by decide) (by decide) (by decide) (by decide) rfl
    rfl (by decide) rfl]
  decide

/-! ## Claim C4, amended: round-trip lemmas -/

/-- String append concatenates the underlying character lists. -/
theorem toList_append (a b : String) : (a ++ b).toList = a.toList ++ b.toList := by
  cases a; cases b; rfl

/-- Universal-newline translation is the identity on carriage-return-free
text. -/
theorem unlChars_of_no_cr : ∀ l : List Char, '\r' ∉ l → unlChars l = l
  | [], _ => rfl
  | c :: rest, h => by
    have hc : c ≠ '\r' := fun hh => h (hh ▸ List.mem_cons_self _ _)
    have ih := unlChars_of_no_cr rest fun hm => h (List.mem_cons_of_mem _ hm)
    cases rest with
    | nil => simp [unlChars, hc]
    | cons d rest2 => simp [unlChars, hc, ih]

/-- Reading the first line of newline-free (and carriage-return-free)
content returns the content itself. -/
theorem firstLine_of_single_line (s : String) (hn : '\n' ∉ s.toList)
    (hr : '\r' ∉ s.toList) : firstLine s = s := by
  show (⟨(unlChars s.toList).takeWhile fun c => c ≠ '\n'⟩ : String) = s
  rw [unlChars_of_no_cr s.toList hr]
  rw [List.takeWhile_eq_self_iff.mpr fun x hx => by
    simp only [ne_eq, decide_eq_true_eq]
    exact fun hh => hn (hh ▸ hx)]
  rfl

/-- Dropping a prefix never lengthens a list. -/
theorem length_dropWhile_le (p : Char → Bool) :
    ∀ l : List Char, (List.dropWhile p l).length ≤ l.length
  | [] => le_rfl
  | c :: cs => by
    rw [List.dropWhile_cons]
    by_cases h : p c
    · simp only [h, if_true]
      exact le_trans (length_dropWhile_le p cs) (Nat.le_succ _)
    · simp [h]

/-- Dropping leading matches is a no-op past a non-matching element. -/
theorem dropWhile_append_cons {p : Char → Bool} :
    ∀ (a : List Char) (b0 : Char) (bs : List Char),
      List.dropWhile p a = a → p b0 = false →
      List.dropWhile p (a ++ b0 :: bs) = a ++ b0 :: bs
  | [], b0, bs, _, hb => by simp [List.dropWhile_cons, hb]
  | x :: a', b0, bs, ha, hb => by
    rw [List.dropWhile_cons] at ha
    by_cases hp : p x
    · exfalso
      rw [if_pos hp] at ha
      have hlen : (x :: a').length ≤ a'.length := by
        rw [← ha]; exact length_dropWhile_le _ _
      simp at hlen
    · simp [List.dropWhile_cons, hp]

/-- The splitter never returns an empty list of groups. -/
theorem splitOnChar_ne_nil (sep : Char) : ∀ l, splitOnChar sep l ≠ []
  | [] => by simp [splitOnChar]
  | c :: cs => by
    have := splitOnChar_ne_nil sep cs
    rcases h : splitOnChar sep cs with _ | ⟨g, gs⟩
    · exact absurd h this
    · by_cases hc : c = sep <;> simp [splitOnChar, h, hc]

/-- Splitting a separator-free list yields the single group. -/
theorem splitOnChar_of_not_mem (sep : Char) :
    ∀ l : List Char, sep ∉ l → splitOnChar sep l = [l]
  | [], _ => rfl
  | c :: cs, h => by
    have hc : c ≠ sep := fun hh => h (hh ▸ List.mem_cons_self _ _)
    have ih := splitOnChar_of_not_mem sep cs fun hm => h (List.mem_cons_of_mem _ hm)
    simp [splitOnChar, ih, hc]

/-- Splitting peels one separator-free group at a time. -/
theorem splitOnChar_append (sep : Char) :
    ∀ (a b : List Char), sep ∉ a →
      splitOnChar sep (a ++ sep :: b) = a :: splitOnChar sep b
  | [], b, _ => by
    rcases h : splitOnChar sep b with _ | ⟨g, gs⟩
    · exact absurd h (splitOnChar_ne_nil sep b)
    · simp [splitOnChar, h]
  | x :: a', b, h => by
    have hx : x ≠ sep := fun hh => h (hh ▸ List.mem_cons_self _ _)
    have ih := splitOnChar_append sep a' b fun hm => h (List.mem_cons_of_mem _ hm)
    simp [splitOnChar, ih, hx]

/-- A serialized field is round-trippable iff it contains neither the
`'/'` delimiter nor a line break. -/
def fieldOk (s : String) : Bool :=
  !s.toList.contains '/' && !s.toList.contains '\n' && !s.toList.contains '\r'

/-- Unpack `fieldOk` into the three non-membership facts. -/
theorem fieldOk_spec {s : String} (h : fieldOk s = true) :
    '/' ∉ s.toList ∧ '\n' ∉ s.toList ∧ '\r' ∉ s.toList := by
  simpa [fieldOk, List.contains, and_assoc] using h

/-- What the load actually reconstructs from a saved state: the token
byte-for-byte, but every absent optional field coerced to the empty
string. -/
def canonToken (t : Token) : Token :=
  ⟨t.token, some (t.cursor.getD ""), some (t.complete_list_size.getD ""),
    some (t.expiration_date.getD "")⟩

/-- C4 as amended: saving a ContinuationState and loading it back yields
not the state itself but its canonical form — absent optional fields come
back as present-but-empty strings — and only under side conditions: no
field may contain the `'/'` delimiter or a line break, and the expiration
field may not end in whitespace.  (The original claim fails without these
conditions: see the counterexample.) -/
theorem c4_amended_roundtrip (t : Token)
    (h1 : fieldOk t.token = true)
    (h2 : fieldOk (t.cursor.getD "") = true)
    (h3 : fieldOk (t.complete_list_size.getD "") = true)
    (h4 : fieldOk (t.expiration_date.getD "") = true)
    (h5 : rstrip (t.expiration_date.getD "") = t.expiration_date.getD "") :
    loadLine (saveToken t) = .resume (canonToken t) := by
  obtain ⟨h1s, h1n, h1r⟩ := fieldOk_spec h1
  obtain ⟨h2s, h2n, h2r⟩ := fieldOk_spec h2
  obtain ⟨h3s, h3n, h3r⟩ := fieldOk_spec h3
  obtain ⟨h4s, h4n, h4r⟩ := fieldOk_spec h4
  have hL : (saveToken t).toList
      = t.token.toList ++ '/' :: ((t.cursor.getD "").toList ++ '/' ::
        ((t.complete_list_size.getD "").toList ++ '/' ::
          (t.expiration_date.getD "").toList)) := by
    simp only [saveToken, toList_append, List.append_assoc]
    rfl
  have hn : '\n' ∉ (saveToken t).toList := by
    intro hmem
    rw [hL] at hmem
    simp only [List.mem_append, List.mem_cons] at hmem
    rcases hmem with h | h | h | h | h | h | h
    exacts [h1n h, absurd h (by decide), h2n h, absurd h (by decide),
      h3n h, absurd h (by decide), h4n h]
  have hrr : '\r' ∉ (saveToken t).toList := by
    intro hmem
    rw [hL] at hmem
    simp only [List.mem_append, List.mem_cons] at hmem
    rcases hmem with h | h | h | h | h | h | h
    exacts [h1r h, absurd h (by decide), h2r h, absurd h (by decide),
      h3r h, absurd h (by decide), h4r h]
  have h5' : ((t.expiration_date.getD "").toList.reverse.dropWhile
      pyIsSpace).reverse = (t.expiration_date.getD "").toList :=
    congrArg String.toList h5
  have hdropE : (t.expiration_date.getD "").toList.reverse.dropWhile pyIsSpace
      = (t.expiration_date.getD "").toList.reverse := by
    have h6 := congrArg List.reverse h5'
    rwa [List.reverse_reverse] at h6
  have hrev : (saveToken t).toList.reverse
      = (t.expiration_date.getD "").toList.reverse ++ '/' ::
        ((t.complete_list_size.getD "").toList.reverse ++ '/' ::
          ((t.cursor.getD "").toList.reverse ++ '/' :: t.token.toList.reverse)) := by
    rw [hL]
    simp [List.reverse_append, List.append_assoc]
  have hrstr : rstrip (saveToken t) = saveToken t := by
    show (⟨((saveToken t).toList.reverse.dropWhile pyIsSpace).reverse⟩ : String)
        = saveToken t
    rw [hrev, dropWhile_append_cons _ _ _ hdropE (by decide), ← hrev,
      List.reverse_reverse]
    rfl
  have hsplit : pySplit '/' (saveToken t)
      = [t.token, t.cursor.getD "", t.complete_list_size.getD "",
         t.expiration_date.getD ""] := by
    unfold pySplit
    rw [hL, splitOnChar_append _ _ _ h1s, splitOnChar_append _ _ _ h2s,
      splitOnChar_append _ _ _ h3s, splitOnChar_of_not_mem _ _ h4s]
    rfl
  unfold loadLine
  rw [firstLine_of_single_line _ hn hrr, hrstr, hsplit]
  rfl

/-- C4 amended, witnessed at the spec's own example state (absent
expiration restored as the empty string). -/
theorem c4_amended_roundtrip_witness :
    loadLine (saveToken ⟨"abc123", some "50", some "500", none⟩)
      = .resume ⟨"abc123", some "50", some "500", some ""⟩ :=
  c4_amended_roundtrip ⟨"abc123", some "50", some "500", none⟩
    (by decide) (by decide) (by decide) (by decide) (by decide)

/-! ## Event-level view of the streaming loop (claims C3 and C9)

The loop body of lines 114–159 performs, for each item in order: the
metadata row write, flush and fsync (lines 121–130, when the metadata sink
is configured); the record write, flush and fsync (lines 131–144, when the
record sink is configured); then the checkpoint update — truncate+seek
(lines 145–146), the conditional token write (lines 147–157), flush and
fsync (lines 158–159).  Events are tagged with the global index of the item
being processed. -/

/-- Observable file-system events of one run. -/
inductive Ev where
  /-- Line 99: `open(status_file, 'wt')` truncates the status file. -/
  | openTrunc
  | metaWrite (j : Nat)
  | metaFlush (j : Nat)
  | metaFsync (j : Nat)
  | recWrite (j : Nat)
  | recFlush (j : Nat)
  | recFsync (j : Nat)
  /-- Lines 145–146: `sf.truncate(0); sf.seek(0)` — the checkpoint update
  for item `j` begins. -/
  | ckptTrunc (j : Nat)
  /-- Lines 147–157: the serialized token written for item `j`. -/
  | ckptWrite (j : Nat) (s : String)
  | ckptFlush (j : Nat)
  | ckptFsync (j : Nat)
  /-- Line 162: the final truncation. -/
  | finalTrunc
  deriving DecidableEq, Repr

/-- The sink events of one item, per configured sink, in source order. -/
def sinkEvents (hasMeta hasRec : Bool) (j : Nat) : List Ev :=
  (if hasMeta then [.metaWrite j, .metaFlush j, .metaFsync j] else []) ++
    (if hasRec then [.recWrite j, .recFlush j, .recFsync j] else [])

/-- The checkpoint-write event of one item, present exactly when the page
carries a resumption token. -/
def ckptWriteEvs : Option Token → Nat → List Ev
  | some t, j => [Ev.ckptWrite j (saveToken t)]
  | none, _ => []

/-- The checkpoint events of one item: truncate, the token write when a
resumption token is present, flush, fsync. -/
def ckptEvents (tok : Option Token) (j : Nat) : List Ev :=
  .ckptTrunc j :: (ckptWriteEvs tok j ++ [.ckptFlush j, .ckptFsync j])

/-- All events of one iteration of the loop body. -/
def itemEvents (hasMeta hasRec : Bool) (tok : Option Token) (j : Nat) :
    List Ev :=
  sinkEvents hasMeta hasRec j ++ ckptEvents tok j

/-- The events of the whole streaming loop, starting at global item index
`s`, where `toks` lists, per item, the resumption token of the page the
item belongs to. -/
def streamEvents (hasMeta hasRec : Bool) : Nat → List (Option Token) → List Ev
  | _, [] => []
  | j, t :: ts =>
    itemEvents hasMeta hasRec t j ++ streamEvents hasMeta hasRec (j + 1) ts

/-- The full event trace of a run that reaches the streaming phase: the
`'wt'` open of the status file, the loop, the final truncation. -/
def fullTrace (hasMeta hasRec : Bool) (toks : List (Option Token)) : List Ev :=
  Ev.openTrunc :: (streamEvents hasMeta hasRec 0 toks ++ [Ev.finalTrunc])

/-- Status-file content after replaying a list of events over an initial
content: truncations empty it, a checkpoint write (which always follows a
truncate+seek to position 0) replaces it. -/
def statusContent : String → List Ev → String
  | s, [] => s
  | _, .openTrunc :: rest => statusContent "" rest
  | _, .ckptTrunc _ :: rest => statusContent "" rest
  | _, .ckptWrite _ w :: rest => statusContent w rest
  | _, .finalTrunc :: rest => statusContent "" rest
  | s, _ :: rest => statusContent s rest

/-- Splitting a concatenation at an element absent from the left part. -/
theorem append_cons_split {α : Type} [DecidableEq α] :
    ∀ (u : List α) {v l₁ l₂ : List α} {e : α},
      u ++ v = l₁ ++ e :: l₂ → e ∉ u →
      ∃ w, l₁ = u ++ w ∧ v = w ++ e :: l₂
  | [], v, l₁, l₂, e, h, _ => ⟨l₁, rfl, h⟩
  | x :: u', v, l₁, l₂, e, h, he => by
    cases l₁ with
    | nil =>
      simp only [List.nil_append, List.cons_append, List.cons.injEq] at h
      exact absurd (h.1 ▸ List.mem_cons_self x u') he
    | cons y l₁' =>
      simp only [List.cons_append, List.cons.injEq] at h
      obtain ⟨w, hw1, hw2⟩ :=
        append_cons_split u' h.2 fun hm => he (List.mem_cons_of_mem _ hm)
      exact ⟨w, by rw [← h.1, hw1]; exact (List.cons_append x u' w).symm, hw2⟩

/-- A concatenation splits uniquely at an element occurring only once. -/
theorem append_cons_split_unique {α : Type} [DecidableEq α]
    (u : List α) {v l₁ l₂ : List α} {e : α}
    (h : u ++ e :: v = l₁ ++ e :: l₂) (hu : e ∉ u) (hv : e ∉ v) :
    l₁ = u ∧ l₂ = v := by
  obtain ⟨w, hw1, hw2⟩ := append_cons_split u h hu
  cases w with
  | nil => simp only [List.nil_append, List.cons.injEq] at hw2 ⊢
           exact ⟨by simpa using hw1, hw2.2.symm⟩
  | cons a w' =>
    simp only [List.cons_append, List.cons.injEq] at hw2
    exact absurd (hw2.2 ▸ List.mem_append_right w' (List.mem_cons_self e l₂))
      (hw2.1 ▸ hv)

/-- The checkpoint-begin event never occurs among an item's sink events. -/
theorem ckptTrunc_not_mem_sinkEvents (hM hR : Bool) (j j' : Nat) :
    Ev.ckptTrunc j ∉ sinkEvents hM hR j' := by
  cases hM <;> cases hR <;> simp [sinkEvents]

/-- The checkpoint-begin event of item `j` occurs in item `j'`'s checkpoint
events only when `j = j'`. -/
theorem ckptTrunc_mem_ckptEvents {tok : Option Token} {j j' : Nat}
    (h : Ev.ckptTrunc j ∈ ckptEvents tok j') : j = j' := by
  cases tok <;> simpa [ckptEvents, ckptWriteEvs] using h

/-- Items streamed from index `s` only carry checkpoint-begin events with
index at least `s`. -/
theorem ckptTrunc_not_mem_streamEvents (hM hR : Bool) :
    ∀ (ts : List (Option Token)) (s j : Nat), j < s →
      Ev.ckptTrunc j ∉ streamEvents hM hR s ts
  | [], _, _, _ => by simp [streamEvents]
  | t :: ts, s, j, hj => by
    intro hmem
    rcases List.mem_append.mp hmem with hm | hm
    · rcases List.mem_append.mp hm with hm' | hm'
      · exact ckptTrunc_not_mem_sinkEvents hM hR j s hm'
      · exact absurd (ckptTrunc_mem_ckptEvents hm') (Nat.ne_of_lt hj)
    · exact ckptTrunc_not_mem_streamEvents hM hR ts (s + 1) j
        (Nat.lt_succ_of_lt hj) hm

/-- Within one item, sink fsyncs precede the checkpoint events. -/
theorem metaFsync_mem_sinkEvents (hR : Bool) (j : Nat) :
    Ev.metaFsync j ∈ sinkEvents true hR j := by
  cases hR <;> simp [sinkEvents]

/-- The record fsync of an item occurs among its sink events. -/
theorem recFsync_mem_sinkEvents (hM : Bool) (j : Nat) :
    Ev.recFsync j ∈ sinkEvents hM true j := by
  cases hM <;> simp [sinkEvents]

/-- The checkpoint-begin event never occurs in checkpoint tails. -/
theorem ckptTrunc_not_mem_ckptTail (tok : Option Token) (j j' : Nat) :
    Ev.ckptTrunc j ∉ ckptWriteEvs tok j' ++ [Ev.ckptFlush j', Ev.ckptFsync j'] := by
  cases tok <;> simp [ckptWriteEvs]

/-- Anywhere the streamed trace splits at the checkpoint-begin event of
item `j`, the part before it already contains item `j`'s fsync for every
configured sink. -/
theorem sink_fsync_before_ckpt_aux (hM hR : Bool) :
    ∀ (ts : List (Option Token)) (s j : Nat) (l₁ l₂ : List Ev),
      streamEvents hM hR s ts = l₁ ++ .ckptTrunc j :: l₂ →
      (hM = true → .metaFsync j ∈ l₁) ∧ (hR = true → .recFsync j ∈ l₁)
  | [], s, j, l₁, l₂, h => by simp [streamEvents] at h
  | t :: ts, s, j, l₁, l₂, h => by
    rw [streamEvents] at h
    by_cases hj : j = s
    · subst hj
      rw [itemEvents, ckptEvents, List.append_assoc] at h
      have h' : sinkEvents hM hR j ++ Ev.ckptTrunc j ::
          ((ckptWriteEvs t j ++ [Ev.ckptFlush j, Ev.ckptFsync j]) ++
            streamEvents hM hR (j + 1) ts) = l₁ ++ Ev.ckptTrunc j :: l₂ := by
        simpa [List.append_assoc] using h
      obtain ⟨hl₁, _⟩ := append_cons_split_unique _ h'
        (ckptTrunc_not_mem_sinkEvents hM hR j j)
        (by
          intro hm
          rcases List.mem_append.mp hm with hm' | hm'
          · exact ckptTrunc_not_mem_ckptTail t j j hm'
          · exact ckptTrunc_not_mem_streamEvents hM hR ts (j + 1) j
              (Nat.lt_succ_self j) hm')
      subst hl₁
      exact ⟨fun hMt => hMt ▸ metaFsync_mem_sinkEvents hR j,
             fun hRt => hRt ▸ recFsync_mem_sinkEvents hM j⟩
    · have hnm : Ev.ckptTrunc j ∉ itemEvents hM hR t s := by
        intro hm
        rcases List.mem_append.mp hm with hm' | hm'
        · exact ckptTrunc_not_mem_sinkEvents hM hR j s hm'
        · exact hj (ckptTrunc_mem_ckptEvents hm')
      obtain ⟨w, hw1, hw2⟩ := append_cons_split _ h hnm
      obtain ⟨hMc, hRc⟩ := sink_fsync_before_ckpt_aux hM hR ts (s + 1) j w l₂ hw2
      subst hw1
      exact ⟨fun hMt => List.mem_append_right _ (hMc hMt),
             fun hRt => List.mem_append_right _ (hRc hRt)⟩

/-! ## Claim C3 -/

/-- C3. Confirmed: in the event trace of the streaming loop — for any sink
configuration and any sequence of items — wherever the trace splits at the
beginning of the checkpoint update for item `j` (the truncate at line 145),
the events before it already include item `j`'s metadata fsync (when the
metadata sink is configured) and record fsync (when the record sink is
configured): every configured sink's write for an item is flushed and
forced to stable storage before the checkpoint update for that item
begins. -/
theorem c3_sink_durable_before_checkpoint (hasMeta hasRec : Bool)
    (toks : List (Option Token)) (j : Nat) (l₁ l₂ : List Ev)
    (hsplit : streamEvents hasMeta hasRec 0 toks
      = l₁ ++ .ckptTrunc j :: l₂) :
    (hasMeta = true → .metaFsync j ∈ l₁) ∧
    (hasRec = true → .recFsync j ∈ l₁) :=
  sink_fsync_before_ckpt_aux hasMeta hasRec toks 0 j l₁ l₂ hsplit

/-- C3, witnessed on a one-item trace with both sinks configured. -/
theorem c3_sink_durable_before_checkpoint_witness :
    (true = true → Ev.metaFsync 0 ∈
      ([.metaWrite 0, .metaFlush 0, .metaFsync 0,
        .recWrite 0, .recFlush 0, .recFsync 0] : List Ev)) ∧
    (true = true → Ev.recFsync 0 ∈
      ([.metaWrite 0, .metaFlush 0, .metaFsync 0,
        .recWrite 0, .recFlush 0, .recFsync 0] : List Ev)) :=
  c3_sink_durable_before_checkpoint true true [none] 0
    [.metaWrite 0, .metaFlush 0, .metaFsync 0,
     .recWrite 0, .recFlush 0, .recFsync 0]
    [.ckptFlush 0, .ckptFsync 0] (by decide)

/-! ## Claim C9 -/

/-- Replaying checkpoint-write-free events from an empty status file leaves
it empty. -/
theorem statusContent_no_write :
    ∀ l : List Ev, (∀ j w, Ev.ckptWrite j w ∉ l) → statusContent "" l = ""
  | [], _ => rfl
  | e :: rest, h => by
    have hrest : ∀ j w, Ev.ckptWrite j w ∉ rest :=
      fun j w hm => h j w (List.mem_cons_of_mem _ hm)
    have ih := statusContent_no_write rest hrest
    cases e with
    | ckptWrite j w => exact absurd (List.mem_cons_self _ _) (h j w)
    | openTrunc => simpa [statusContent] using ih
    | metaWrite j => simpa [statusContent] using ih
    | metaFlush j => simpa [statusContent] using ih
    | metaFsync j => simpa [statusContent] using ih
    | recWrite j => simpa [statusContent] using ih
    | recFlush j => simpa [statusContent] using ih
    | recFsync j => simpa [statusContent] using ih
    | ckptTrunc j => simpa [statusContent] using ih
    | ckptFlush j => simpa [statusContent] using ih
    | ckptFsync j => simpa [statusContent] using ih
    | finalTrunc => simpa [statusContent] using ih

/-- C9. Confirmed: every streaming run's trace begins with the truncation
performed by the `'wt'` open of the status file, and after any prefix of
the trace that does not yet contain a per-item checkpoint write, the status
file is empty — whatever resume position `init` it held before the run. -/
theorem c9_open_truncates_before_first_commit (hasMeta hasRec : Bool)
    (toks : List (Option Token)) (init : String) (pre suf : List Ev)
    (hsplit : fullTrace hasMeta hasRec toks = Ev.openTrunc :: (pre ++ suf))
    (hnw : ∀ j w, Ev.ckptWrite j w ∉ pre) :
    (fullTrace hasMeta hasRec toks).head? = some Ev.openTrunc ∧
    statusContent init (Ev.openTrunc :: pre) = "" := by
  refine ⟨rfl, ?_⟩
  show statusContent "" pre = ""
  exact statusContent_no_write pre hnw

/-- C9, witnessed: a run killed after the first item's record fsync but
before its checkpoint write has an empty status file, although the
checkpoint held `"1/2/6/"` when the run started. -/
theorem c9_open_truncates_witness :
    (fullTrace true true [some tok1]).head? = some Ev.openTrunc ∧
    statusContent "1/2/6/"
      (Ev.openTrunc :: [.metaWrite 0, .metaFlush 0, .metaFsync 0,
        .recWrite 0, .recFlush 0, .recFsync 0]) = "" :=
  c9_open_truncates_before_first_commit true true [some tok1] "1/2/6/"
    [.metaWrite 0, .metaFlush 0, .metaFsync 0,
     .recWrite 0, .recFlush 0, .recFsync 0]
    [.ckptTrunc 0, .ckptWrite 0 (saveToken tok1), .ckptFlush 0, .ckptFsync 0,
     .finalTrunc]
    (by decide) (by intro j w hm; simp at hm)

/-! ## Record Transform: strip_namespaces (lines 41–51)

`strip_namespaces` walks every element of the tree (`doc.getiterator()`)
and rewrites, in place and independently per element, the tag and each
attribute name that starts with `'{'` to its part after the first `'}'`
(a Clark-notation `{namespace}local` name becomes `local`); the final
`etree.cleanup_namespaces` only removes namespace declarations, which are
not part of the element model here.  lxml validates every tag or attribute
name it is handed, so the names the crawler can encounter or assign are
captured by `validName` below. -/

/-- Python `name.startswith` applied to the namespace-opening brace. -/
def startsBrace (s : String) : Bool :=
  match s.toList with
  | c :: _ => c = '\x7b'
  | [] => false

/-- The brace-guarded rewrite applied to one name (lines 44–45 for tags,
line 49 for attribute names): a name opening with a brace is replaced by
what follows the first closing brace — `none` models the `IndexError` when
there is none — and any other name is left untouched. -/
def stripName (s : String) : Option String :=
  if startsBrace s then
    (splitOnceAfter '\x7d' s.toList).map fun l => (⟨l⟩ : String)
  else some s

/-- Python `dict.pop(key)` on an ordered attribute dict: the value bound to
the key (or `none`) and the dict without that binding. -/
def popAttr (k : String) :
    List (String × String) → Option String × List (String × String)
  | [] => (none, [])
  | (k', v) :: rest =>
    if k' = k then (some v, rest)
    else
      let r := popAttr k rest
      (r.1, (k', v) :: r.2)

/-- Python `dict[key] = value` on an ordered attribute dict: overwrite the
existing binding in place, or append a new one. -/
def setAttr (k v : String) :
    List (String × String) → List (String × String)
  | [] => [(k, v)]
  | (k', v') :: rest =>
    if k' = k then (k, v) :: rest else (k', v') :: setAttr k v rest

/-- Lines 47–49: loop over a snapshot of the element's attribute names; for
each namespaced name pop its binding and re-insert it under the stripped
name.  `none` models the `IndexError` raised for a brace-opened name with
no closing brace. -/
def stripAttrsLoop :
    List String → List (String × String) → Option (List (String × String))
  | [], m => some m
  | k :: ks, m =>
    if startsBrace k then
      match stripName k, popAttr k m with
      | some k2, (some v, m2) => stripAttrsLoop ks (setAttr k2 v m2)
      | some _, (none, _) => stripAttrsLoop ks m
      | none, _ => none
    else stripAttrsLoop ks m

/-- An lxml element tree: tag, ordered attribute dict, children.  Namespace
declarations (`nsmap`) are not modelled; `cleanup_namespaces` acts only on
them. -/
inductive Element where
  | node (tag : String) (attrib : List (String × String))
      (children : List Element)

/-- The tag of an element. -/
def Element.tag : Element → String
  | .node t _ _ => t

/-- The attributes of an element. -/
def Element.attrib : Element → List (String × String)
  | .node _ a _ => a

mutual

/-- Lines 41–51 applied over the whole tree: every element's tag and
attribute names are rewritten independently; the tree shape never changes.
`none` models the `IndexError` crash. -/
def stripElement : Element → Option Element
  | .node tag attrib children =>
    match stripName tag, stripAttrsLoop (attrib.map Prod.fst) attrib,
        stripChildren children with
    | some tag2, some attrib2, some children2 =>
      some (.node tag2 attrib2 children2)
    | _, _, _ => none

/-- The per-element rewrite applied to each child in order. -/
def stripChildren : List Element → Option (List Element)
  | [] => some []
  | e :: es =>
    match stripElement e, stripChildren es with
    | some e2, some es2 => some (e2 :: es2)
    | _, _ => none

end

/-- A name with no namespace prefix: it does not open with a brace. -/
def plainName (s : String) : Bool := !startsBrace s

/-- A name lxml would accept wherever the crawler reads or assigns one: if
it opens with a brace then it closes it, and the local part after the first
closing brace does not itself open with a brace (lxml rejects such names on
assignment, including the assignments `strip_namespaces` itself performs).
A plain name is always valid. -/
def validName (s : String) : Bool :=
  match stripName s with
  | none => false
  | some t => !startsBrace t

/-- No attribute name bound twice — a Python dict cannot hold duplicate
keys. -/
def keysNodup : List String → Bool
  | [] => true
  | k :: ks => !ks.contains k && keysNodup ks

mutual

/-- Every name in the tree is lxml-valid and each element's attribute names
are distinct. -/
def validElement : Element → Bool
  | .node tag attrib children =>
    validName tag && (attrib.map Prod.fst).all validName &&
      keysNodup (attrib.map Prod.fst) && validChildren children

/-- Validity of a list of elements. -/
def validChildren : List Element → Bool
  | [] => true
  | e :: es => validElement e && validChildren es

end

mutual

/-- A tree none of whose tags or attribute names carries a namespace
prefix. -/
def plainElement : Element → Bool
  | .node tag attrib children =>
    plainName tag && (attrib.map Prod.fst).all plainName &&
      plainChildren children

/-- Plainness of a list of elements. -/
def plainChildren : List Element → Bool
  | [] => true
  | e :: es => plainElement e && plainChildren es

end

/-- A plain name is left untouched by the rewrite. -/
theorem stripName_plain {s : String} (h : plainName s = true) :
    stripName s = some s := by
  have hb : startsBrace s = false := by simpa [plainName] using h
  simp [stripName, hb]

/-- A valid name strips to a plain name. -/
theorem validName_spec {s : String} (h : validName s = true) :
    ∃ t, stripName s = some t ∧ plainName t = true := by
  unfold validName at h
  cases hs : stripName s with
  | none => rw [hs] at h; exact absurd h (by simp)
  | some t => rw [hs] at h; exact ⟨t, rfl, by simpa [plainName] using h⟩

/-- The boolean key-distinctness check means `Nodup`. -/
theorem keysNodup_iff : ∀ ks : List String, keysNodup ks = true ↔ ks.Nodup
  | [] => by simp [keysNodup]
  | k :: ks => by
    simp [keysNodup, keysNodup_iff ks, List.contains]

/-- Entries surviving a pop were entries before. -/
theorem popAttr_mem (k : String) :
    ∀ (m : List (String × String)) (kv : String × String),
      kv ∈ (popAttr k m).2 → kv ∈ m
  | [], kv, h => by simp [popAttr] at h
  | (k', v) :: rest, kv, h => by
    by_cases hk : k' = k
    · simp only [popAttr, hk, if_pos] at h
      exact List.mem_cons_of_mem _ h
    · simp only [popAttr, hk, if_neg, ite_false, List.mem_cons] at h
      rcases h with h | h
      · exact h ▸ List.mem_cons_self _ _
      · exact List.mem_cons_of_mem _ (popAttr_mem k rest kv h)

/-- The keys surviving a pop form a sublist of the original keys. -/
theorem popAttr_keys_sublist (k : String) :
    ∀ m : List (String × String),
      ((popAttr k m).2.map Prod.fst).Sublist (m.map Prod.fst)
  | [] => by simp [popAttr]
  | (k', v) :: rest => by
    by_cases hk : k' = k
    · simp only [popAttr, hk, if_pos, List.map_cons]
      exact (List.Sublist.refl _).cons _
    · simp only [popAttr, hk, if_neg, ite_false, List.map_cons]
      exact (popAttr_keys_sublist k rest).cons₂ _

/-- After a successful pop of `k` from a dict with distinct keys, `k` is
gone. -/
theorem popAttr_some_not_mem (k : String) :
    ∀ (m : List (String × String)) (v : String),
      (m.map Prod.fst).Nodup → (popAttr k m).1 = some v →
      k ∉ (popAttr k m).2.map Prod.fst
  | [], v, _, h => by simp [popAttr] at h
  | (k', v') :: rest, v, hnd, h => by
    by_cases hk : k' = k
    · simp only [popAttr, hk, if_pos]
      subst hk
      exact (List.nodup_cons.mp (by simpa only [List.map_cons] using hnd)).1
    · simp only [popAttr, hk, if_neg, ite_false] at h ⊢
      simp only [List.map_cons, List.mem_cons]
      rintro (hkk | hmem)
      · exact hk hkk.symm
      · exact popAttr_some_not_mem k rest v
          (List.nodup_cons.mp (by simpa only [List.map_cons] using hnd)).2 h hmem

/-- A failed pop means the key is absent. -/
theorem popAttr_none_not_mem (k : String) :
    ∀ m : List (String × String),
      (popAttr k m).1 = none → k ∉ m.map Prod.fst
  | [], _ => by simp
  | (k', v') :: rest, h => by
    by_cases hk : k' = k
    · simp [popAttr, hk] at h
    · simp only [popAttr, hk, if_neg, ite_false] at h
      simp only [List.map_cons, List.mem_cons]
      rintro (hkk | hmem)
      · exact hk hkk.symm
      · exact popAttr_none_not_mem k rest h hmem

/-- Entries after a subscript assignment: the new binding or an old one. -/
theorem setAttr_mem (k2 v : String) :
    ∀ (m : List (String × String)) (kv : String × String),
      kv ∈ setAttr k2 v m → kv = (k2, v) ∨ kv ∈ m
  | [], kv, h => by simpa [setAttr] using h
  | (k', v') :: rest, kv, h => by
    by_cases hk : k' = k2
    · simp only [setAttr, hk, if_pos, List.mem_cons] at h
      rcases h with h | h
      · exact Or.inl h
      · exact Or.inr (List.mem_cons_of_mem _ h)
    · simp only [setAttr, hk, if_neg, ite_false, List.mem_cons] at h
      rcases h with h | h
      · exact Or.inr (h ▸ List.mem_cons_self _ _)
      · rcases setAttr_mem k2 v rest kv h with h' | h'
        · exact Or.inl h'
        · exact Or.inr (List.mem_cons_of_mem _ h')

/-- Keys after a subscript assignment: the assigned key or an old key. -/
theorem mem_keys_setAttr (k2 v : String) (m : List (String × String))
    (a : String) (h : a ∈ (setAttr k2 v m).map Prod.fst) :
    a = k2 ∨ a ∈ m.map Prod.fst := by
  obtain ⟨kv, hkv, hfst⟩ := List.mem_map.mp h
  rcases setAttr_mem k2 v m kv hkv with h' | h'
  · exact Or.inl (by rw [← hfst, h'])
  · exact Or.inr (List.mem_map.mpr ⟨kv, h', hfst⟩)

/-- Subscript assignment keeps the keys distinct. -/
theorem setAttr_keys_nodup (k2 v : String) :
    ∀ m : List (String × String),
      (m.map Prod.fst).Nodup → ((setAttr k2 v m).map Prod.fst).Nodup
  | [], _ => by simp [setAttr]
  | (k', v') :: rest, hnd => by
    have hnd' := List.nodup_cons.mp (by simpa only [List.map_cons] using hnd)
    by_cases hk : k' = k2
    · simp only [setAttr, hk, if_pos, List.map_cons]
      exact List.nodup_cons.mpr ⟨hk ▸ hnd'.1, hnd'.2⟩
    · simp only [setAttr, hk, if_neg, ite_false, List.map_cons]
      refine List.nodup_cons.mpr ⟨?_, setAttr_keys_nodup k2 v rest hnd'.2⟩
      intro hmem
      rcases mem_keys_setAttr k2 v rest k' hmem with h' | h'
      · exact hk h'
      · exact hnd'.1 h'

/-- The attribute loop does nothing when every snapshot key is plain. -/
theorem stripAttrsLoop_plain :
    ∀ (ks : List String) (m : List (String × String)),
      (∀ k ∈ ks, plainName k = true) → stripAttrsLoop ks m = some m
  | [], m, _ => rfl
  | k :: ks, m, h => by
    have hb : startsBrace k = false := by
      simpa [plainName] using h k (List.mem_cons_self _ _)
    simp only [stripAttrsLoop, hb, Bool.false_eq_true, if_false]
    exact stripAttrsLoop_plain ks m fun k' hk' => h k' (List.mem_cons_of_mem _ hk')

/-- The attribute loop cannot crash when every namespaced snapshot key is
lxml-valid. -/
theorem stripAttrsLoop_isSome :
    ∀ (ks : List String) (m : List (String × String)),
      (∀ k ∈ ks, startsBrace k = true → validName k = true) →
      ∃ m2, stripAttrsLoop ks m = some m2
  | [], m, _ => ⟨m, rfl⟩
  | k :: ks, m, h => by
    have htail : ∀ k' ∈ ks, startsBrace k' = true → validName k' = true :=
      fun k' hk' => h k' (List.mem_cons_of_mem _ hk')
    by_cases hb : startsBrace k = true
    · obtain ⟨k2, hk2, _⟩ := validName_spec (h k (List.mem_cons_self _ _) hb)
      rcases hpop : popAttr k m with ⟨vo, m2⟩
      cases vo with
      | some v =>
        obtain ⟨m3, hm3⟩ := stripAttrsLoop_isSome ks (setAttr k2 v m2) htail
        exact ⟨m3, by simp [stripAttrsLoop, hb, hk2, hpop, hm3]⟩
      | none =>
        obtain ⟨m3, hm3⟩ := stripAttrsLoop_isSome ks m htail
        exact ⟨m3, by simp [stripAttrsLoop, hb, hk2, hpop, hm3]⟩
    · obtain ⟨m3, hm3⟩ := stripAttrsLoop_isSome ks m htail
      exact ⟨m3, by simp [stripAttrsLoop, hb, hm3]⟩

/-- After the attribute loop runs over a snapshot covering every namespaced
key of a distinct-key dict, with every namespaced snapshot key lxml-valid,
no remaining key carries a namespace prefix. -/
theorem stripAttrsLoop_plain_keys :
    ∀ (ks : List String) (m m2 : List (String × String)),
      stripAttrsLoop ks m = some m2 →
      (∀ kv ∈ m, plainName kv.1 = true ∨ kv.1 ∈ ks) →
      (∀ k ∈ ks, startsBrace k = true → validName k = true) →
      (m.map Prod.fst).Nodup →
      ∀ kv ∈ m2, plainName kv.1 = true
  | [], m, m2, hres, hcov, _, _, kv, hkv => by
    obtain rfl : m = m2 := by simpa [stripAttrsLoop] using hres
    rcases hcov kv hkv with h | h
    · exact h
    · simp at h
  | k :: ks, m, m2, hres, hcov, hval, hnd, kv, hkv => by
    have htail : ∀ k' ∈ ks, startsBrace k' = true → validName k' = true :=
      fun k' hk' => hval k' (List.mem_cons_of_mem _ hk')
    by_cases hb : startsBrace k = true
    · obtain ⟨k2, hk2, hk2p⟩ :=
        validName_spec (hval k (List.mem_cons_self _ _) hb)
      rcases hpop : popAttr k m with ⟨vo, mrest⟩
      cases vo with
      | some v =>
        have hres' : stripAttrsLoop ks (setAttr k2 v mrest) = some m2 := by
          simpa [stripAttrsLoop, hb, hk2, hpop] using hres
        refine stripAttrsLoop_plain_keys ks (setAttr k2 v mrest) m2 hres'
          ?_ htail ?_ kv hkv
        · intro kv' hkv'
          rcases setAttr_mem k2 v mrest kv' hkv' with h' | h'
          · exact Or.inl (h' ▸ hk2p)
          · have hmem : kv' ∈ m := popAttr_mem k m kv' (by rw [hpop]; exact h')
            rcases hcov kv' hmem with h'' | h''
            · exact Or.inl h''
            · rcases List.mem_cons.mp h'' with h3 | h3
              · exfalso
                have hgone : k ∉ (popAttr k m).2.map Prod.fst :=
                  popAttr_some_not_mem k m v hnd (by rw [hpop])
                rw [hpop] at hgone
                exact hgone (h3 ▸ List.mem_map.mpr ⟨kv', h', rfl⟩)
              · exact Or.inr h3
        · refine setAttr_keys_nodup k2 v mrest ?_
          have := (popAttr_keys_sublist k m).nodup hnd
          rwa [hpop] at this
      | none =>
        have hres' : stripAttrsLoop ks m = some m2 := by
          simpa [stripAttrsLoop, hb, hk2, hpop] using hres
        refine stripAttrsLoop_plain_keys ks m m2 hres' ?_ htail hnd kv hkv
        intro kv' hkv'
        rcases hcov kv' hkv' with h' | h'
        · exact Or.inl h'
        · rcases List.mem_cons.mp h' with h3 | h3
          · exfalso
            have habs : k ∉ m.map Prod.fst :=
              popAttr_none_not_mem k m (by rw [hpop])
            exact habs (h3 ▸ List.mem_map.mpr ⟨kv', hkv', rfl⟩)
          · exact Or.inr h3
    · have hres' : stripAttrsLoop ks m = some m2 := by
        simpa [stripAttrsLoop, hb] using hres
      refine stripAttrsLoop_plain_keys ks m m2 hres' ?_ htail hnd kv hkv
      intro kv' hkv'
      rcases hcov kv' hkv' with h' | h'
      · exact Or.inl h'
      · rcases List.mem_cons.mp h' with h3 | h3
        · exact Or.inl (by simp [plainName, h3 ▸ hb])
        · exact Or.inr h3

/-- Unpack tree validity at a node. -/
theorem validElement_node {tag : String} {attrib : List (String × String)}
    {children : List Element}
    (h : validElement (.node tag attrib children) = true) :
    validName tag = true ∧ (∀ k ∈ attrib.map Prod.fst, validName k = true) ∧
      (attrib.map Prod.fst).Nodup ∧ validChildren children = true := by
  have h' := h
  simp only [validElement, Bool.and_eq_true] at h'
  obtain ⟨⟨⟨h1, h2⟩, h3⟩, h4⟩ := h'
  exact ⟨h1, by simpa [List.all_eq_true] using h2, (keysNodup_iff _).mp h3, h4⟩

mutual

/-- One pass of `strip_namespaces` on an lxml-valid tree succeeds, and a
second pass leaves its result unchanged. -/
theorem stripElement_idem : ∀ e : Element, validElement e = true →
    ∃ e2, stripElement e = some e2 ∧ stripElement e2 = some e2
  | .node tag attrib children, h => by
    obtain ⟨h1, h2, h3, h4⟩ := validElement_node h
    obtain ⟨tag2, hst, hpl⟩ := validName_spec h1
    obtain ⟨m2, hm2⟩ := stripAttrsLoop_isSome (attrib.map Prod.fst) attrib
      (fun k hk _ => h2 k hk)
    obtain ⟨cs2, hcs, hcs2⟩ := stripChildren_idem children h4
    have hkeys : ∀ kv ∈ m2, plainName kv.1 = true :=
      stripAttrsLoop_plain_keys (attrib.map Prod.fst) attrib m2 hm2
        (fun kv hkv => Or.inr (List.mem_map.mpr ⟨kv, hkv, rfl⟩))
        (fun k hk _ => h2 k hk) h3
    refine ⟨.node tag2 m2 cs2, by simp [stripElement, hst, hm2, hcs], ?_⟩
    have hloop2 : stripAttrsLoop (m2.map Prod.fst) m2 = some m2 :=
      stripAttrsLoop_plain (m2.map Prod.fst) m2 (fun k hk => by
        obtain ⟨kv, hkv, rfl⟩ := List.mem_map.mp hk
        exact hkeys kv hkv)
    simp [stripElement, stripName_plain hpl, hloop2, hcs2]

/-- Children version of `stripElement_idem`. -/
theorem stripChildren_idem : ∀ es : List Element, validChildren es = true →
    ∃ es2, stripChildren es = some es2 ∧ stripChildren es2 = some es2
  | [], _ => ⟨[], rfl, rfl⟩
  | e :: es, h => by
    have h' : validElement e = true ∧ validChildren es = true := by
      simpa [validChildren, Bool.and_eq_true] using h
    obtain ⟨e2, he1, he2⟩ := stripElement_idem e h'.1
    obtain ⟨es2, hs1, hs2⟩ := stripChildren_idem es h'.2
    exact ⟨e2 :: es2, by simp [stripChildren, he1, hs1],
      by simp [stripChildren, he2, hs2]⟩

end

mutual

/-- A tree with no namespaced names anywhere is wholly unchanged. -/
theorem stripElement_plain : ∀ e : Element, plainElement e = true →
    stripElement e = some e
  | .node tag attrib children, h => by
    have h' : plainName tag = true ∧
        (attrib.map Prod.fst).all plainName = true ∧
        plainChildren children = true := by
      simpa [plainElement, Bool.and_eq_true, and_assoc] using h
    have hloop : stripAttrsLoop (attrib.map Prod.fst) attrib = some attrib :=
      stripAttrsLoop_plain _ _ (by simpa [List.all_eq_true] using h'.2.1)
    simp [stripElement, stripName_plain h'.1, hloop,
      stripChildren_plain children h'.2.2]

/-- Children version of `stripElement_plain`. -/
theorem stripChildren_plain : ∀ es : List Element, plainChildren es = true →
    stripChildren es = some es
  | [], _ => rfl
  | e :: es, h => by
    have h' : plainElement e = true ∧ plainChildren es = true := by
      simpa [plainChildren, Bool.and_eq_true] using h
    simp [stripChildren, stripElement_plain e h'.1,
      stripChildren_plain es h'.2]

end

/-! ## Claim C10 -/

/-- C10. Confirmed, relative to lxml's name validation (which the crawler's
trees always satisfy, since lxml rejects invalid tag and attribute names on
parse and on every assignment, including the ones `strip_namespaces` itself
performs): a name without the namespace-opening brace is left unchanged by
one application; a tree carrying only such names is returned unchanged; and
on every valid tree one application succeeds and a second application
returns the first result unchanged — `strip_namespaces` is idempotent. -/
theorem c10_strip_namespaces_idempotent :
    (∀ s : String, plainName s = true → stripName s = some s) ∧
    (∀ e : Element, plainElement e = true → stripElement e = some e) ∧
    (∀ e : Element, validElement e = true →
      ∃ e2, stripElement e = some e2 ∧ stripElement e2 = some e2) :=
  ⟨fun _ h => stripName_plain h, stripElement_plain, stripElement_idem⟩

/-- A concrete namespaced element: Clark-notation names on the root's tag
and first attribute, one plain attribute, one plain child. -/
def elemEx : Element :=
  .node "\x7burn:ns\x7drecord" [("\x7burn:ns\x7did", "7"), ("kept", "x")]
    [.node "title" [("a", "1")] []]

/-- C10, witnessed: a plain name survives, a plain subtree survives, and
the namespaced example strips successfully to a fixed point of a second
application. -/
theorem c10_strip_namespaces_witness :
    stripName "title" = some "title" ∧
    stripElement (Element.node "title" [("a", "1")] [])
      = some (Element.node "title" [("a", "1")] []) ∧
    ∃ e2, stripElement elemEx = some e2 ∧ stripElement e2 = some e2 :=
  ⟨c10_strip_namespaces_idempotent.1 "title" rfl,
   c10_strip_namespaces_idempotent.2.1 (Element.node "title" [("a", "1")] []) rfl,
   c10_strip_namespaces_idempotent.2.2 elemEx rfl⟩

end FinnaCrawler
